import Mathlib

/-!
Shallow embedding of `src/OfflineLink.js` (Selleo/apollo-link-offline).

The source is a single Apollo link class that intercepts mutations carrying
an `optimisticResponse`, stores them in an insertion-ordered `Map` keyed by
a fresh uuid, persists the queue to a storage provider under the key
`"@offlineLink"`, and replays the queue against the network in a `sync`
pass (sequential or concurrent), with a debounced reschedule.

Modelling decisions:
- The JS `Map` (insertion ordered, unique keys) is a `List (Id × Attempt)`;
  `Map.set` / `Map.delete` / `new Map(entries)` are `mapSet` / `mapDelete` /
  `mapOfList` below, with JS semantics (set of an existing key updates in
  place, set of a fresh key appends).
- uuids are opaque; we model them as `Nat` supplied by the caller, with
  freshness as a hypothesis where it matters (uuid v4 collisions ignored).
- The storage cell holds either nothing (first run), an unparsable string
  (corruption), or a parsed entries list; `JSON.stringify`/`JSON.parse` of
  an entries array is an identity round trip at this level.
- Effects the class performs (cache writeQuery, storage.setItem, network
  calls via client.mutate / forward, observer callbacks, debounce triggers)
  are recorded as an explicit event trace alongside the state.
- Network outcomes are an oracle `Id → Outcome`; the code classifies a
  rejection by whether `err.networkError.response` is present
  (terminal) or not (retryable).
-/

namespace OfflineLink

/-- One queued mutation attempt: `{mutation: query, variables, optimisticResponse}`
(src/OfflineLink.js line 48). -/
structure Attempt where
  mutation : String
  vars : String
  optimisticResponse : Option String
  deriving DecidableEq, Repr

/-- uuids are opaque identifiers; modelled as naturals. -/
abbrev Id := Nat

/-- The queue: a JS `Map` = insertion-ordered association list with unique keys. -/
abbrev Queue := List (Id × Attempt)

/-- JS `Map.prototype.set`: update in place if the key exists, else append. -/
def mapSet (q : Queue) (k : Id) (v : Attempt) : Queue :=
  if q.any (fun p => p.1 = k) then
    q.map (fun p => if p.1 = k then (k, v) else p)
  else
    q ++ [(k, v)]

/-- JS `Map.prototype.delete`: drop the entry with the given key. -/
def mapDelete (q : Queue) (k : Id) : Queue :=
  q.filter (fun p => p.1 ≠ k)

/-- JS `new Map(entries)`: fold the entries through `Map.set`. -/
def mapOfList (l : List (Id × Attempt)) : Queue :=
  l.foldl (fun q p => mapSet q p.1 p.2) []

/-- The SyncStatus read model written by `updateStatus`
(src/OfflineLink.js lines 107-113). -/
structure SyncStatus where
  mutations : Nat
  inflight : Bool
  deriving DecidableEq, Repr

/-- Contents of the storage provider under the key `"@offlineLink"`:
nothing yet, an unparsable value, or a serialized entries array. -/
inductive StoredCell where
  | absent
  | corrupt
  | value (entries : List (Id × Attempt))
  deriving DecidableEq, Repr

/-- An outgoing operation as seen by `request` (query, variables, and the
`optimisticResponse` from the context, if any). -/
structure Operation where
  query : String
  vars : String
  optimisticResponse : Option String
  deriving DecidableEq, Repr

/-- Network outcome of replaying one attempt: the promise resolves
(success), or rejects with `err.networkError.response` present (terminal)
or absent (retryable) — src/OfflineLink.js lines 166-178 and 194-200. -/
inductive Outcome where
  | success
  | terminalFailure
  | retryableFailure
  deriving DecidableEq, Repr

/-- Observable side effects of the link, in program order. -/
inductive Event where
  /-- The call `this.queue.set(attemptId, item)` -/
  | qset (id : Id) (a : Attempt)
  /-- The call `queue.delete(attemptId)` -/
  | qdel (id : Id)
  /-- The call `storage.setItem` with the serialized queue -/
  | persist (entries : List (Id × Attempt))
  /-- The call `client.writeQuery` of the SyncStatus read model -/
  | publish (st : SyncStatus)
  /-- The call `client.mutate(payload)` replaying a queued attempt -/
  | netCall (id : Id) (payload : Attempt)
  /-- The call `forward(operation)` issuing the original network request -/
  | fwd (op : Operation)
  /-- The call `this.delayedSync()` — a debounce trigger -/
  | schedule
  /-- The call `observer.next(data)` -/
  | obsNext (data : String)
  /-- The call `observer.complete()` -/
  | obsComplete
  /-- The call `observer.error(e)` (present in the Observable API; the link never calls it) -/
  | obsError
  deriving DecidableEq, Repr

/-- Link state: in-memory queue, persisted cell, last published status
(none before the first publish), whether a debounced sync is pending, and
the `sequential` configuration flag. -/
structure LinkState where
  queue : Queue
  storage : StoredCell
  status : Option SyncStatus
  syncScheduled : Bool
  sequential : Bool
  deriving DecidableEq, Repr

/-- Method `updateStatus(inflight)` (src/OfflineLink.js lines 107-113): writes
`{mutations: this.queue.size, inflight}` into the cache. -/
def updateStatus (inflight : Bool) (s : LinkState) : LinkState × List Event :=
  let st : SyncStatus := ⟨s.queue.length, inflight⟩
  ({ s with status := some st }, [Event.publish st])

/-- Method `saveQueue()` (src/OfflineLink.js lines 98-102): serializes the full
queue into storage, then `updateStatus(false)`. -/
def saveQueue (s : LinkState) : LinkState × List Event :=
  let s1 := { s with storage := StoredCell.value s.queue }
  let r2 := updateStatus false s1
  (r2.1, Event.persist s.queue :: r2.2)

/-- Method `add(item)` (src/OfflineLink.js lines 118-127): set a fresh id, save. -/
def add (id : Id) (item : Attempt) (s : LinkState) : LinkState × List Event :=
  let s1 := { s with queue := mapSet s.queue id item }
  let r2 := saveQueue s1
  (r2.1, Event.qset id item :: r2.2)

/-- Method `remove(attemptId)` (src/OfflineLink.js lines 132-136): delete, save. -/
def remove (id : Id) (s : LinkState) : LinkState × List Event :=
  let s1 := { s with queue := mapDelete s.queue id }
  let r2 := saveQueue s1
  (r2.1, Event.qdel id :: r2.2)

/-- Method `getQueue()` (src/OfflineLink.js lines 86-93):
`new Map(JSON.parse(stored))` with a `.catch` returning an empty `Map`.
When the key is absent, `JSON.parse(null)` yields `null` and `new Map(null)`
is the empty map; when the stored string fails to parse, the thrown error is
caught and an empty map returned. -/
def getQueue (c : StoredCell) : Queue :=
  match c with
  | .absent => mapOfList []
  | .corrupt => []
  | .value entries => mapOfList entries

/-- The sequential retry loop (src/OfflineLink.js lines 154-185):
iterate over `Array.from(queue)` (the snapshot `l`), awaiting each
`client.mutate({...attempt, optimisticResponse: undefined})`; on success or
on a rejection whose error carries `networkError.response`, delete the
attempt from the live queue `q` and continue; otherwise break. -/
def syncSeqLoop (net : Id → Outcome) : List (Id × Attempt) → Queue → Queue × List Event
  | [], q => (q, [])
  | (id, a) :: rest, q =>
    let payload : Attempt := { a with optimisticResponse := none }
    match net id with
    | .retryableFailure => (q, [Event.netCall id payload])
    | _ =>
      let r := syncSeqLoop net rest (mapDelete q id)
      (r.1, Event.netCall id payload :: Event.qdel id :: r.2)

/-- The concurrent retry pass (src/OfflineLink.js lines 189-202):
`Promise.all` over the snapshot — every `client.mutate(attempt)` is issued
(with the optimistic response still attached), then each attempt whose
outcome is success or terminal failure deletes itself from the live queue. -/
def syncConc (net : Id → Outcome) (q : Queue) : Queue × List Event :=
  let dels := q.filter (fun p => net p.1 ≠ Outcome.retryableFailure)
  (dels.foldl (fun acc p => mapDelete acc p.1) q,
   q.map (fun p => Event.netCall p.1 p.2) ++ dels.map (fun p => Event.qdel p.1))

/-- Method `sync()` (src/OfflineLink.js lines 141-212): return immediately when
the queue is empty; else publish inflight, replay in the configured mode,
`saveQueue()` the remainder, and `delayedSync()` again if non-empty. -/
def sync (net : Id → Outcome) (s : LinkState) : LinkState × List Event :=
  if s.queue.length < 1 then (s, [])
  else
    let r1 := updateStatus true s
    let r2 := if s.sequential then syncSeqLoop net r1.1.queue r1.1.queue
              else syncConc net r1.1.queue
    let r3 := saveQueue { r1.1 with queue := r2.1 }
    if 0 < r2.1.length then
      ({ r3.1 with syncScheduled := true },
       r1.2 ++ r2.2 ++ r3.2 ++ [Event.schedule])
    else
      (r3.1, r1.2 ++ r2.2 ++ r3.2)

/-- Outcome of the forwarded (original) network request as observed by the
subscription handlers in `request` (src/OfflineLink.js lines 50-74). -/
inductive ForwardOutcome where
  | success (result : String)
  | failure
  deriving DecidableEq, Repr

/-- Method `request(operation, forward)` (src/OfflineLink.js lines 37-80), run to
the point where the forwarded call's outcome has been handled. Without an
optimistic response the operation passes through untouched. Otherwise the
attempt is added (and persisted) first, then the request is forwarded; on
success the attempt is removed and the real result delivered; on failure a
debounced sync is scheduled and the optimistic response is delivered as the
final value, followed by completion. -/
def request (op : Operation) (id : Id) (out : ForwardOutcome) (s : LinkState) :
    LinkState × List Event :=
  match op.optimisticResponse with
  | none => (s, [Event.fwd op])
  | some opt =>
    let item : Attempt := ⟨op.query, op.vars, some opt⟩
    let r1 := add id item s
    match out with
    | .success result =>
      let r2 := remove id r1.1
      (r2.1, r1.2 ++ [Event.fwd op] ++ r2.2 ++ [Event.obsNext result, Event.obsComplete])
    | .failure =>
      ({ r1.1 with syncScheduled := true },
       r1.2 ++ [Event.fwd op, Event.schedule, Event.obsNext opt, Event.obsComplete])

/-- Ids of the attempts actually replayed (the `client.mutate` calls) in a
trace. -/
def netCallIds (evs : List Event) : List Id :=
  evs.filterMap (fun e => match e with | .netCall id _ => some id | _ => none)

/-- Events delivered to the original caller's observer. -/
def obsEvents (evs : List Event) : List Event :=
  evs.filter (fun e =>
    match e with
    | .obsNext _ => true
    | .obsComplete => true
    | .obsError => true
    | _ => false)

/-- Running count / running maximum of queue mutations (`qset`/`qdel`) not
yet followed by a `persist`, over an event trace. -/
def stepUnpersisted (p : Nat × Nat) (e : Event) : Nat × Nat :=
  match e with
  | .qset _ _ => (p.1 + 1, max p.2 (p.1 + 1))
  | .qdel _ => (p.1 + 1, max p.2 (p.1 + 1))
  | .persist _ => (0, p.2)
  | _ => p

/-- The largest number of in-memory queue mutations any point of the trace
has seen since the last persist — how far storage can lag memory. -/
def maxUnpersisted (evs : List Event) : Nat :=
  (evs.foldl stepUnpersisted (0, 0)).2

/-- Modelled from the spec: the debounce primitive (`lodash/debounce`,
wrapped as `this.delayedSync` in the constructor, src/OfflineLink.js line
34) is an external dependency whose code is not part of this repository.
Per the spec's glossary a debounce coalesces repeated triggers into one
delayed action, restarting the delay on each trigger: given the sorted
times of trigger requests, a trigger fires at `t + interval` exactly when
no further trigger arrives before that moment. -/
def debounceFires (interval : Nat) : List Nat → List Nat
  | [] => []
  | [t] => [t + interval]
  | t :: t2 :: rest =>
    if t2 < t + interval then debounceFires interval (t2 :: rest)
    else (t + interval) :: debounceFires interval (t2 :: rest)

/-! ### Derived descriptions of the sequential pass

`attempted` lists the entries the sequential loop replays: the longest
prefix whose proper part is non-retryable, closed by the first retryable
entry if one exists. `seqEvents` is the event trace of that replay. -/

/-- The entries the sequential loop actually replays. -/
def attempted (net : Id → Outcome) : Queue → Queue
  | [] => []
  | p :: rest =>
    if net p.1 = Outcome.retryableFailure then [p] else p :: attempted net rest

/-- The event trace of the sequential replay loop. -/
def seqEvents (net : Id → Outcome) : Queue → List Event
  | [] => []
  | (id, a) :: rest =>
    let payload : Attempt := { a with optimisticResponse := none }
    if net id = Outcome.retryableFailure then [Event.netCall id payload]
    else Event.netCall id payload :: Event.qdel id :: seqEvents net rest

/-! ### Helper lemmas about the Map operations -/

lemma mapSet_fresh (q : Queue) (id : Id) (v : Attempt)
    (h : id ∉ q.map Prod.fst) : mapSet q id v = q ++ [(id, v)] := by
  have hc : ¬ (q.any (fun p => p.1 = id) = true) := by
    intro hc
    obtain ⟨p, hp, hpk⟩ := List.any_eq_true.mp hc
    exact h (List.mem_map.mpr ⟨p, hp, of_decide_eq_true hpk⟩)
  unfold mapSet
  rw [if_neg hc]

lemma mapSet_mem_fst (q : Queue) (id : Id) (v : Attempt) :
    id ∈ (mapSet q id v).map Prod.fst := by
  unfold mapSet
  by_cases h : q.any (fun p => p.1 = id) = true
  · rw [if_pos h]
    obtain ⟨p, hp, hpk⟩ := List.any_eq_true.mp h
    have hpk' : p.1 = id := of_decide_eq_true hpk
    refine List.mem_map.mpr ⟨(id, v), List.mem_map.mpr ⟨p, hp, ?_⟩, rfl⟩
    rw [if_pos hpk']
  · rw [if_neg h]
    simp

lemma mapDelete_cons_self (id : Id) (a : Attempt) (rest : Queue)
    (h : id ∉ rest.map Prod.fst) : mapDelete ((id, a) :: rest) id = rest := by
  unfold mapDelete
  rw [List.filter_cons_of_neg (by simp)]
  apply List.filter_eq_self.mpr
  intro p hp
  simp only [decide_eq_true_eq, ne_eq]
  intro hpk
  exact h (List.mem_map.mpr ⟨p, hp, hpk⟩)

lemma foldl_mapSet_fresh (l : List (Id × Attempt)) :
    ∀ q : Queue, (∀ p ∈ l, p.1 ∉ q.map Prod.fst) → (l.map Prod.fst).Nodup →
      l.foldl (fun q p => mapSet q p.1 p.2) q = q ++ l := by
  induction l with
  | nil => intro q _ _; simp
  | cons p l ih =>
    intro q hfresh hnd
    simp only [List.foldl_cons]
    rw [mapSet_fresh q p.1 p.2 (hfresh p (List.mem_cons_self p l))]
    simp only [List.map_cons, List.nodup_cons] at hnd
    rw [ih (q ++ [(p.1, p.2)]) ?_ hnd.2]
    · simp
    · intro x hx
      simp only [List.map_append, List.mem_append]
      rintro (hq | hk)
      · exact hfresh x (List.mem_cons_of_mem p hx) hq
      · simp only [List.map_cons, List.map_nil, List.mem_singleton] at hk
        exact hnd.1 (hk ▸ List.mem_map.mpr ⟨x, hx, rfl⟩)

lemma mapOfList_nodup (l : List (Id × Attempt))
    (hnd : (l.map Prod.fst).Nodup) : mapOfList l = l := by
  unfold mapOfList
  rw [foldl_mapSet_fresh l [] (by simp) hnd]
  simp

lemma foldl_mapDelete (l : List (Id × Attempt)) :
    ∀ q : Queue,
      l.foldl (fun acc p => mapDelete acc p.1) q
        = q.filter (fun x => decide (∀ p ∈ l, x.1 ≠ p.1)) := by
  induction l with
  | nil =>
    intro q
    simp only [List.foldl_nil]
    rw [List.filter_eq_self.mpr]
    intro x _
    simp
  | cons p l ih =>
    intro q
    simp only [List.foldl_cons]
    rw [ih (mapDelete q p.1)]
    unfold mapDelete
    rw [List.filter_filter]
    apply List.filter_congr
    intro x _
    by_cases hx : x.1 = p.1 <;> by_cases hl : ∀ y ∈ l, x.1 ≠ y.1 <;>
      simp [List.forall_mem_cons, hx, hl]

/-! ### Characterization of the sequential pass -/

lemma syncSeqLoop_self (net : Id → Outcome) :
    ∀ l : Queue, (l.map Prod.fst).Nodup →
      syncSeqLoop net l l
        = (l.dropWhile (fun p => net p.1 ≠ Outcome.retryableFailure),
           seqEvents net l) := by
  intro l
  induction l with
  | nil => intro _; rfl
  | cons p rest ih =>
    intro hnd
    obtain ⟨id, a⟩ := p
    simp only [List.map_cons, List.nodup_cons] at hnd
    cases hnet : net id with
    | retryableFailure =>
      simp [syncSeqLoop, seqEvents, List.dropWhile, hnet]
    | success =>
      simp only [syncSeqLoop, hnet]
      rw [mapDelete_cons_self id a rest hnd.1, ih hnd.2]
      simp [seqEvents, List.dropWhile, hnet]
    | terminalFailure =>
      simp only [syncSeqLoop, hnet]
      rw [mapDelete_cons_self id a rest hnd.1, ih hnd.2]
      simp [seqEvents, List.dropWhile, hnet]

lemma netCallIds_seqEvents (net : Id → Outcome) :
    ∀ l : Queue, netCallIds (seqEvents net l) = (attempted net l).map Prod.fst := by
  intro l
  induction l with
  | nil => rfl
  | cons p rest ih =>
    obtain ⟨id, a⟩ := p
    by_cases hnet : net id = Outcome.retryableFailure
    · simp [seqEvents, attempted, netCallIds, hnet]
    · simp only [seqEvents, attempted, hnet, if_false]
      simp only [netCallIds, List.filterMap_cons] at ih ⊢
      simp [ih]

/-- Membership in the final queue of a sequential pass, for a replayed id. -/
lemma seq_membership (net : Id → Outcome) :
    ∀ l : Queue, (l.map Prod.fst).Nodup →
      ∀ id ∈ (attempted net l).map Prod.fst,
        (net id ≠ Outcome.retryableFailure →
          id ∉ (l.dropWhile (fun p => net p.1 ≠ Outcome.retryableFailure)).map Prod.fst) ∧
        (net id = Outcome.retryableFailure →
          id ∈ (l.dropWhile (fun p => net p.1 ≠ Outcome.retryableFailure)).map Prod.fst) := by
  intro l
  induction l with
  | nil => intro _ id hid; simp [attempted] at hid
  | cons p rest ih =>
    intro hnd id hid
    obtain ⟨j, a⟩ := p
    simp only [List.map_cons, List.nodup_cons] at hnd
    by_cases hnet : net j = Outcome.retryableFailure
    · simp only [attempted, hnet, if_true, List.map_cons, List.map_nil,
        List.mem_singleton] at hid
      subst hid
      constructor
      · intro hcon; exact absurd hnet hcon
      · intro _
        rw [List.dropWhile_cons_of_neg (by simp [hnet])]
        simp
    · simp only [attempted, hnet, if_false, List.map_cons, List.mem_cons] at hid
      rw [List.dropWhile_cons_of_pos (by simp [hnet])]
      rcases hid with rfl | hid
      · constructor
        · intro _
          intro hmem
          have hsub : (rest.dropWhile
              (fun p => net p.1 ≠ Outcome.retryableFailure)).Sublist rest :=
            List.dropWhile_sublist _
          exact hnd.1 ((hsub.map Prod.fst).subset hmem)
        · intro hcon; exact absurd hcon hnet
      · exact ih hnd.2 id hid

/-! ### Characterization of the concurrent pass -/

lemma syncConc_queue (net : Id → Outcome) (q : Queue) :
    (syncConc net q).1 = q.filter (fun x => net x.1 = Outcome.retryableFailure) := by
  unfold syncConc
  simp only
  rw [foldl_mapDelete]
  apply List.filter_congr
  intro x hx
  by_cases hr : net x.1 = Outcome.retryableFailure
  · rw [decide_eq_true hr]
    apply decide_eq_true
    intro p hp hxp
    have hpq := List.mem_filter.mp hp
    have hpr : net p.1 = Outcome.retryableFailure := hxp ▸ hr
    exact (of_decide_eq_true hpq.2) hpr
  · rw [decide_eq_false hr]
    apply decide_eq_false
    intro hall
    exact hall x (List.mem_filter.mpr ⟨hx, decide_eq_true hr⟩) rfl

lemma netCallIds_append (l1 l2 : List Event) :
    netCallIds (l1 ++ l2) = netCallIds l1 ++ netCallIds l2 := by
  simp [netCallIds, List.filterMap_append]

lemma netCallIds_map_netCall (l : Queue) :
    netCallIds (l.map (fun p => Event.netCall p.1 p.2)) = l.map Prod.fst := by
  induction l with
  | nil => rfl
  | cons p l ih =>
    simp only [netCallIds, List.filterMap_cons, List.map_cons] at ih ⊢
    simp [ih]

lemma netCallIds_map_qdel (l : Queue) :
    netCallIds (l.map (fun p => Event.qdel p.1)) = [] := by
  induction l with
  | nil => rfl
  | cons p l ih =>
    simp only [netCallIds, List.filterMap_cons, List.map_cons] at ih ⊢
    simp [ih]

lemma netCallIds_syncConc (net : Id → Outcome) (q : Queue) :
    netCallIds (syncConc net q).2 = q.map Prod.fst := by
  unfold syncConc
  simp only
  rw [netCallIds_append, netCallIds_map_netCall, netCallIds_map_qdel,
    List.append_nil]

/-! ### Projections of `sync` -/

lemma sync_empty (net : Id → Outcome) (s : LinkState) (h : s.queue = []) :
    sync net s = (s, []) := by
  rw [sync, if_pos (by simp [h])]

lemma length_not_lt_one {α : Type} {l : List α} (h : l ≠ []) : ¬ l.length < 1 := by
  simpa [Nat.lt_one_iff, List.length_eq_zero] using h

lemma sync_queue_eq (net : Id → Outcome) (s : LinkState) (h : s.queue ≠ []) :
    (sync net s).1.queue
      = (if s.sequential then syncSeqLoop net s.queue s.queue
         else syncConc net s.queue).1 := by
  rw [sync, if_neg (length_not_lt_one h)]
  simp only [updateStatus, saveQueue]
  split_ifs <;> rfl

lemma sync_netCallIds_eq (net : Id → Outcome) (s : LinkState) (h : s.queue ≠ []) :
    netCallIds (sync net s).2
      = netCallIds (if s.sequential then syncSeqLoop net s.queue s.queue
                    else syncConc net s.queue).2 := by
  rw [sync, if_neg (length_not_lt_one h)]
  simp only [updateStatus, saveQueue]
  split_ifs <;>
    simp [netCallIds, List.filterMap_append]

lemma sync_storage_eq (net : Id → Outcome) (s : LinkState) (h : s.queue ≠ []) :
    (sync net s).1.storage = StoredCell.value (sync net s).1.queue := by
  rw [sync, if_neg (length_not_lt_one h)]
  simp only [updateStatus, saveQueue]
  split_ifs <;> rfl

/-- Ids deleted from the queue (`queue.delete`) in a trace. -/
def qdelIds (evs : List Event) : List Id :=
  evs.filterMap (fun e => match e with | .qdel id => some id | _ => none)

/-! ### Claims -/

/-- C7: hydrate (`getQueue`) returns an empty queue both when no serialized
queue is present under the storage key and when the stored value fails to
parse; neither case raises an error to the caller (`getQueue` is a total
function into `Queue`, with no error outcome). -/
theorem C7_hydrate_absent_or_corrupt_is_empty :
    getQueue StoredCell.absent = [] ∧ getQueue StoredCell.corrupt = [] :=
  ⟨rfl, rfl⟩

/-- C8: if the queue is empty when `sync()` is invoked, it returns
immediately: the state (queue, storage, status) is unchanged and the event
trace is empty — no status publish, no network call, no persist. -/
theorem C8_sync_empty_queue_is_noop (net : Id → Outcome) (s : LinkState)
    (h : s.queue = []) : sync net s = (s, []) :=
  sync_empty net s h

/-- C8 witness: concrete empty-queue state. -/
theorem C8_sync_empty_queue_is_noop_witness :
    sync (fun _ => Outcome.success)
        ⟨[], StoredCell.absent, none, false, false⟩
      = (⟨[], StoredCell.absent, none, false, false⟩, []) :=
  C8_sync_empty_queue_is_noop _ _ rfl

/-- C6: serializing a queue of k attempts via persist (`saveQueue`) and
deserializing it via hydrate (`getQueue`) yields the same queue — same
length, same insertion order, identical ids and payloads. -/
theorem C6_persistence_roundtrip (s : LinkState)
    (hnd : (s.queue.map Prod.fst).Nodup) :
    getQueue ((saveQueue s).1.storage) = s.queue := by
  show getQueue (StoredCell.value s.queue) = s.queue
  exact mapOfList_nodup s.queue hnd

/-- C6 witness: a concrete two-entry queue round-trips. -/
theorem C6_persistence_roundtrip_witness :
    getQueue ((saveQueue ⟨[(1, ⟨"m1", "v1", none⟩), (2, ⟨"m2", "v2", some "o2"⟩)],
        StoredCell.absent, none, false, false⟩).1.storage)
      = [(1, ⟨"m1", "v1", none⟩), (2, ⟨"m2", "v2", some "o2"⟩)] :=
  C6_persistence_roundtrip _ (by decide)

/-- C10: every persist (`saveQueue`), including the ones performed by `add`
and by `remove`, unconditionally publishes a SyncStatus with
`inflight = false` and `mutations` equal to the current queue size —
whatever status (in particular an in-flight one) was published before. -/
theorem C10_saveQueue_always_publishes_idle (s : LinkState) (id : Id)
    (item : Attempt) :
    (saveQueue s).2
        = [Event.persist s.queue, Event.publish ⟨s.queue.length, false⟩] ∧
    (saveQueue s).1.status = some ⟨s.queue.length, false⟩ ∧
    (add id item s).2
        = [Event.qset id item, Event.persist (mapSet s.queue id item),
           Event.publish ⟨(mapSet s.queue id item).length, false⟩] ∧
    (add id item s).1.status = some ⟨(mapSet s.queue id item).length, false⟩ ∧
    (remove id s).2
        = [Event.qdel id, Event.persist (mapDelete s.queue id),
           Event.publish ⟨(mapDelete s.queue id).length, false⟩] ∧
    (remove id s).1.status = some ⟨(mapDelete s.queue id).length, false⟩ :=
  ⟨rfl, rfl, rfl, rfl, rfl, rfl⟩

/-- C2: for an intercepted write with an optimistic response, whatever the
outcome of the forwarded call, the trace starts with exactly one new
attempt appended to the queue, the persist of that extended queue, the
status publish — and only then the forward of the network request. -/
theorem C2_enqueue_before_forward (op : Operation) (id : Id)
    (out : ForwardOutcome) (s : LinkState) (opt : String)
    (hopt : op.optimisticResponse = some opt)
    (hfresh : id ∉ s.queue.map Prod.fst) :
    (request op id out s).2.take 4
      = [Event.qset id ⟨op.query, op.vars, some opt⟩,
         Event.persist (s.queue ++ [(id, ⟨op.query, op.vars, some opt⟩)]),
         Event.publish ⟨s.queue.length + 1, false⟩,
         Event.fwd op] := by
  have hset := mapSet_fresh s.queue id ⟨op.query, op.vars, some opt⟩ hfresh
  cases out with
  | success result =>
    simp [request, hopt, add, saveQueue, updateStatus, remove, hset]
  | failure =>
    simp [request, hopt, add, saveQueue, updateStatus, hset]

/-- C2 witness: a concrete intercepted write on a one-entry queue. -/
theorem C2_enqueue_before_forward_witness :
    (request ⟨"q", "v", some "o"⟩ 5 ForwardOutcome.failure
        ⟨[(1, ⟨"m", "w", none⟩)], StoredCell.absent, none, false, false⟩).2.take 4
      = [Event.qset 5 ⟨"q", "v", some "o"⟩,
         Event.persist [(1, ⟨"m", "w", none⟩), (5, ⟨"q", "v", some "o"⟩)],
         Event.publish ⟨2, false⟩,
         Event.fwd ⟨"q", "v", some "o"⟩] :=
  C2_enqueue_before_forward _ 5 _ _ "o" rfl (by decide)

/-- C3: for an intercepted write with an optimistic response whose
forwarded call fails, a debounced sync is scheduled, the caller's observer
receives exactly the speculative result and then completion (never an
error), and the attempt is not removed from the queue (no delete is
performed and the id is still present). -/
theorem C3_failure_resolves_optimistically (op : Operation) (id : Id)
    (s : LinkState) (opt : String) (hopt : op.optimisticResponse = some opt) :
    obsEvents (request op id ForwardOutcome.failure s).2
        = [Event.obsNext opt, Event.obsComplete] ∧
    Event.obsError ∉ (request op id ForwardOutcome.failure s).2 ∧
    Event.schedule ∈ (request op id ForwardOutcome.failure s).2 ∧
    (request op id ForwardOutcome.failure s).1.syncScheduled = true ∧
    qdelIds (request op id ForwardOutcome.failure s).2 = [] ∧
    id ∈ (request op id ForwardOutcome.failure s).1.queue.map Prod.fst := by
  refine ⟨?_, ?_, ?_, ?_, ?_, ?_⟩
  · simp [request, hopt, add, saveQueue, updateStatus, obsEvents]
  · simp [request, hopt, add, saveQueue, updateStatus]
  · simp [request, hopt, add, saveQueue, updateStatus]
  · simp [request, hopt]
  · simp [request, hopt, add, saveQueue, updateStatus, qdelIds]
  · simp only [request, hopt, add, saveQueue, updateStatus]
    exact mapSet_mem_fst s.queue id _

/-- C3 witness: a concrete failed intercepted write. -/
theorem C3_failure_resolves_optimistically_witness :
    obsEvents (request ⟨"q", "v", some "o"⟩ 7 ForwardOutcome.failure
        ⟨[], StoredCell.absent, none, false, false⟩).2
        = [Event.obsNext "o", Event.obsComplete] ∧
    Event.obsError ∉ (request ⟨"q", "v", some "o"⟩ 7 ForwardOutcome.failure
        ⟨[], StoredCell.absent, none, false, false⟩).2 ∧
    Event.schedule ∈ (request ⟨"q", "v", some "o"⟩ 7 ForwardOutcome.failure
        ⟨[], StoredCell.absent, none, false, false⟩).2 ∧
    (request ⟨"q", "v", some "o"⟩ 7 ForwardOutcome.failure
        ⟨[], StoredCell.absent, none, false, false⟩).1.syncScheduled = true ∧
    qdelIds (request ⟨"q", "v", some "o"⟩ 7 ForwardOutcome.failure
        ⟨[], StoredCell.absent, none, false, false⟩).2 = [] ∧
    7 ∈ ((request ⟨"q", "v", some "o"⟩ 7 ForwardOutcome.failure
        ⟨[], StoredCell.absent, none, false, false⟩).1.queue.map Prod.fst) :=
  C3_failure_resolves_optimistically ⟨"q", "v", some "o"⟩ 7
    ⟨[], StoredCell.absent, none, false, false⟩ "o" rfl

/-- C1: for every attempt actually replayed during `sync()` (a
`client.mutate` call appears in the trace), in both sequential and
concurrent mode: a success or a terminal failure (error carrying a
structured server response) leaves the attempt removed from the final
queue, while a retryable failure (no structured response) leaves it in
the queue for the next cycle. -/
theorem C1_replay_outcome_classification (net : Id → Outcome) (s : LinkState)
    (hnd : (s.queue.map Prod.fst).Nodup) (id : Id)
    (hid : id ∈ netCallIds (sync net s).2) :
    (net id ≠ Outcome.retryableFailure →
        id ∉ (sync net s).1.queue.map Prod.fst) ∧
    (net id = Outcome.retryableFailure →
        id ∈ (sync net s).1.queue.map Prod.fst) := by
  by_cases hq : s.queue = []
  · rw [sync_empty net s hq] at hid
    simp [netCallIds] at hid
  · rw [sync_netCallIds_eq net s hq] at hid
    rw [sync_queue_eq net s hq]
    by_cases hm : s.sequential
    · rw [if_pos hm] at hid ⊢
      rw [syncSeqLoop_self net s.queue hnd] at hid ⊢
      rw [netCallIds_seqEvents] at hid
      exact seq_membership net s.queue hnd id hid
    · rw [if_neg hm] at hid ⊢
      rw [netCallIds_syncConc] at hid
      rw [syncConc_queue]
      constructor
      · intro hnr hmem
        obtain ⟨x, hx, hxid⟩ := List.mem_map.mp hmem
        have hxf := List.mem_filter.mp hx
        have hxr : net x.1 = Outcome.retryableFailure := of_decide_eq_true hxf.2
        rw [hxid] at hxr
        exact hnr hxr
      · intro hr
        obtain ⟨x, hx, hxid⟩ := List.mem_map.mp hid
        refine List.mem_map.mpr ⟨x, List.mem_filter.mpr ⟨hx, ?_⟩, hxid⟩
        exact decide_eq_true (by rw [hxid]; exact hr)

/-- C1 witness: concurrent mode, two attempts, one succeeding and one
failing retryably; the succeeding one is replayed and removed. -/
theorem C1_replay_outcome_classification_witness :
    ((fun i => if i = 2 then Outcome.retryableFailure else Outcome.success) 1
        ≠ Outcome.retryableFailure →
      1 ∉ ((sync (fun i => if i = 2 then Outcome.retryableFailure
              else Outcome.success)
          ⟨[(1, ⟨"m1", "v1", none⟩), (2, ⟨"m2", "v2", none⟩)],
            StoredCell.absent, none, false, false⟩).1.queue.map Prod.fst)) ∧
    ((fun i => if i = 2 then Outcome.retryableFailure else Outcome.success) 1
        = Outcome.retryableFailure →
      1 ∈ ((sync (fun i => if i = 2 then Outcome.retryableFailure
              else Outcome.success)
          ⟨[(1, ⟨"m1", "v1", none⟩), (2, ⟨"m2", "v2", none⟩)],
            StoredCell.absent, none, false, false⟩).1.queue.map Prod.fst)) :=
  C1_replay_outcome_classification
    (fun i => if i = 2 then Outcome.retryableFailure else Outcome.success)
    ⟨[(1, ⟨"m1", "v1", none⟩), (2, ⟨"m2", "v2", none⟩)],
      StoredCell.absent, none, false, false⟩
    (by decide) 1 (by decide)

/-- C4: in sequential mode, `sync()` replays attempts in insertion order
one at a time — the ids sent to the network are exactly those of the
longest prefix closed by the first retryable failure (`attempted`), so no
later attempt is tried in that cycle — and the final queue is the original
queue with the replayed non-retryable prefix removed (everything from the
first retryable failure onward remains, in order). -/
theorem C4_sequential_stops_at_first_retryable (net : Id → Outcome)
    (s : LinkState) (hseq : s.sequential = true)
    (hnd : (s.queue.map Prod.fst).Nodup) :
    (sync net s).1.queue
        = s.queue.dropWhile (fun p => net p.1 ≠ Outcome.retryableFailure) ∧
    netCallIds (sync net s).2 = (attempted net s.queue).map Prod.fst := by
  by_cases hq : s.queue = []
  · rw [sync_empty net s hq]
    simp [hq, netCallIds, attempted]
  · rw [sync_queue_eq net s hq, sync_netCallIds_eq net s hq, hseq]
    simp only [if_true]
    rw [syncSeqLoop_self net s.queue hnd]
    exact ⟨rfl, netCallIds_seqEvents net s.queue⟩

/-- C4 witness: sequential mode with outcomes success, retryable, success:
only the first two attempts are replayed and the queue keeps the tail from
the retryable attempt on. -/
theorem C4_sequential_stops_at_first_retryable_witness :
    (sync (fun i => if i = 2 then Outcome.retryableFailure
        else Outcome.success)
      ⟨[(1, ⟨"m1", "v1", none⟩), (2, ⟨"m2", "v2", none⟩),
        (3, ⟨"m3", "v3", none⟩)],
        StoredCell.absent, none, false, true⟩).1.queue
      = [(2, ⟨"m2", "v2", none⟩), (3, ⟨"m3", "v3", none⟩)] ∧
    netCallIds (sync (fun i => if i = 2 then Outcome.retryableFailure
        else Outcome.success)
      ⟨[(1, ⟨"m1", "v1", none⟩), (2, ⟨"m2", "v2", none⟩),
        (3, ⟨"m3", "v3", none⟩)],
        StoredCell.absent, none, false, true⟩).2 = [1, 2] :=
  C4_sequential_stops_at_first_retryable
    (fun i => if i = 2 then Outcome.retryableFailure else Outcome.success)
    ⟨[(1, ⟨"m1", "v1", none⟩), (2, ⟨"m2", "v2", none⟩),
      (3, ⟨"m3", "v3", none⟩)],
      StoredCell.absent, none, false, true⟩
    rfl (by decide)

/-- C5 counterexample: a sequential `sync()` over a two-entry queue whose
replays both succeed performs two `queue.delete` mutations before the
single `saveQueue` at the end of the pass, so the persisted state lags the
in-memory queue by two mutations at that point — refuting the claim that
no point of execution diverges by more than one in-process mutation. -/
theorem C5_counterexample :
    1 < maxUnpersisted ((sync (fun _ => Outcome.success)
      ⟨[(1, ⟨"m1", "v1", none⟩), (2, ⟨"m2", "v2", none⟩)],
        StoredCell.value [(1, ⟨"m1", "v1", none⟩), (2, ⟨"m2", "v2", none⟩)],
        none, false, true⟩).2) := by
  decide

/-- C5 (amended): `add` and `remove` each persist the full queue
synchronously after their single mutation (their traces never accumulate
more than one unpersisted mutation), but `sync()` batches its removals and
persists only once at the end of the pass; after the pass the persisted
state again equals the in-memory queue. -/
theorem C5_amended_persist_discipline (net : Id → Outcome) (s : LinkState)
    (id : Id) (item : Attempt) :
    maxUnpersisted (add id item s).2 ≤ 1 ∧
    maxUnpersisted (remove id s).2 ≤ 1 ∧
    maxUnpersisted (saveQueue s).2 ≤ 1 ∧
    (s.queue ≠ [] →
      (sync net s).1.storage = StoredCell.value (sync net s).1.queue) := by
  refine ⟨?_, ?_, ?_, fun h => sync_storage_eq net s h⟩ <;>
    simp [add, remove, saveQueue, updateStatus, maxUnpersisted, stepUnpersisted]

/-- C5 amended witness: the discipline at a concrete state. -/
theorem C5_amended_persist_discipline_witness :
    maxUnpersisted (add 2 ⟨"m2", "v2", none⟩
      ⟨[(1, ⟨"m1", "v1", none⟩)], StoredCell.absent, none, false, true⟩).2 ≤ 1 ∧
    maxUnpersisted (remove 2
      ⟨[(1, ⟨"m1", "v1", none⟩)], StoredCell.absent, none, false, true⟩).2 ≤ 1 ∧
    maxUnpersisted (saveQueue
      ⟨[(1, ⟨"m1", "v1", none⟩)], StoredCell.absent, none, false, true⟩).2 ≤ 1 ∧
    ([(1, ⟨"m1", "v1", none⟩)] ≠ ([] : Queue) →
      (sync (fun _ => Outcome.success)
        ⟨[(1, ⟨"m1", "v1", none⟩)], StoredCell.absent, none, false, true⟩).1.storage
      = StoredCell.value (sync (fun _ => Outcome.success)
        ⟨[(1, ⟨"m1", "v1", none⟩)], StoredCell.absent, none, false, true⟩).1.queue) :=
  C5_amended_persist_discipline (fun _ => Outcome.success)
    ⟨[(1, ⟨"m1", "v1", none⟩)], StoredCell.absent, none, false, true⟩
    2 ⟨"m2", "v2", none⟩

/-- C9: the scheduling of a sync cycle is debounced — for any nonempty
run of trigger times in which every consecutive gap is strictly less than
the interval, exactly one execution fires, at the interval after the last
trigger. -/
theorem C9_debounce_coalescing (interval t : Nat) (rest : List Nat)
    (h : List.Chain (fun a b => b < a + interval) t rest) :
    debounceFires interval (t :: rest) = [rest.getLastD t + interval] := by
  induction rest generalizing t with
  | nil => rfl
  | cons t2 rest ih =>
    cases h with
    | cons hlt hchain =>
      simp only [debounceFires]
      rw [if_pos hlt, ih t2 hchain, List.getLastD_cons]

/-- C9 witness: three triggers at 0, 5 and 9 with interval 10 coalesce
into a single fire at 19. -/
theorem C9_debounce_coalescing_witness :
    debounceFires 10 [0, 5, 9] = [19] := by
  have h : List.Chain (fun a b => b < a + 10) 0 [5, 9] :=
    List.Chain.cons (by decide) (List.Chain.cons (by decide) List.Chain.nil)
  simpa using C9_debounce_coalescing 10 0 [5, 9] h

end OfflineLink
